import Mathlib

/-!
Formal model of the feature-reconciliation core of the houselytics
dashboard (`src/preprocess.py` and the schema loader of
`app_pages/predictor.py`).

Tables are modelled as ordered association lists of named columns; a cell
is a rational number, a text label, or missing (pandas `NaN`).  All
numeric values are rationals.  The pandas operations the source uses
(`Series.map` over a dict, `fillna`, `DataFrame.median(numeric_only=True)`,
`DataFrame.reindex`, column assignment) are embedded as the corresponding
total functions on these lists.
-/

/-- A single table cell: a number, a text label, or a missing value (NaN). -/
inductive Cell where
  | num (q : ℚ)
  | str (s : String)
  | missing
deriving DecidableEq, Repr

/-- A dataframe: ordered list of named columns, each a list of cells. -/
abbrev DataFrame := List (String × List Cell)

/-- Association-list lookup on the first matching key (pandas label lookup,
python `dict.get` / `Series.get`). -/
def alookup {α : Type} : List (String × α) → String → Option α
  | [], _ => none
  | p :: l, k => if p.1 = k then some p.2 else alookup l k

/-- Column-membership test (`col in df.columns`, `key in dict`). -/
def hasCol {α : Type} (df : List (String × α)) (name : String) : Bool :=
  df.any (fun c => c.1 == name)

/-- Python dict assignment `d[k] = v`: update the entry in place when the
key exists, append it otherwise. -/
def dictInsert {α : Type} : List (String × α) → String → α → List (String × α)
  | [], k, v => [(k, v)]
  | p :: r, k, v => if p.1 = k then (k, v) :: r else p :: dictInsert r k v

/-- Column assignment `df[name] = f(df[name])` for an existing column. -/
def setCol (df : DataFrame) (name : String) (f : List Cell → List Cell) : DataFrame :=
  df.map (fun c => if c.1 = name then (c.1, f c.2) else c)

/-- The numeric content of a cell, when it has one. -/
def cellNum? : Cell → Option ℚ
  | .num q => some q
  | _ => none

/-- Whether a cell is a text label. -/
def cellIsStr : Cell → Bool
  | .str _ => true
  | _ => false

/-- A column is numeric when no cell is a text label (an all-missing CSV
column reads back as numeric). -/
def colNumeric (cells : List Cell) : Bool :=
  cells.all (fun c => !cellIsStr c)

/-- Insert a rational into a sorted list, keeping it sorted. -/
def insertSorted (x : ℚ) : List ℚ → List ℚ
  | [] => [x]
  | y :: ys => if x ≤ y then x :: y :: ys else y :: insertSorted x ys

/-- Sort a list of rationals ascending (insertion sort). -/
def sortRats (l : List ℚ) : List ℚ :=
  l.foldr insertSorted []

/-- Pandas median of one column: drop missing cells, sort, take the middle
element (odd count) or the mean of the two middle elements (even count);
`none` (NaN) when no numeric data remains. -/
def medianOf (cells : List Cell) : Option ℚ :=
  let xs := sortRats (cells.filterMap cellNum?)
  let n := xs.length
  if n = 0 then none
  else if n % 2 = 1 then some (xs.getD (n / 2) 0)
  else some ((xs.getD (n / 2 - 1) 0 + xs.getD (n / 2) 0) / 2)

/-- `df.median(numeric_only=True)`: a series over the numeric columns, in
column order; an all-missing numeric column contributes a NaN (`none`)
median. -/
def frameMedians (df : DataFrame) : List (String × Option ℚ) :=
  (df.filter (fun c => colNumeric c.2)).map (fun c => (c.1, medianOf c.2))

-- Maps must match the encoding used in the notebooks (src/preprocess.py).
def BSMT_EXPOSURE_MAP : List (String × ℚ) :=
  [("No", 0), ("Mn", 1), ("Av", 2), ("Gd", 3)]
def BSMT_FIN_MAP : List (String × ℚ) :=
  [("Unf", 0), ("LwQ", 1), ("Rec", 2), ("BLQ", 3), ("ALQ", 4), ("GLQ", 5)]
def GARAGE_FINISH_MAP : List (String × ℚ) :=
  [("Unf", 0), ("RFn", 1), ("Fin", 2)]
def KITCHEN_QUAL_MAP : List (String × ℚ) :=
  [("Po", 1), ("Fa", 2), ("TA", 3), ("Gd", 4), ("Ex", 5)]

/-- `series.map(mapping)` for a dict argument: a cell whose value is a key
of the dict becomes the mapped number; every other cell (unknown label,
number, missing) becomes missing. -/
def seriesMapDict (cells : List Cell) (mapping : List (String × ℚ)) : List Cell :=
  cells.map (fun c =>
    match c with
    | .str s =>
      match alookup mapping s with
      | some v => .num v
      | none => .missing
    | _ => .missing)

/-- `series.fillna(v)` for a number `v`: replace missing cells by `v`. -/
def fillna (cells : List Cell) (v : ℚ) : List Cell :=
  cells.map (fun c => if c = Cell.missing then Cell.num v else c)

/-- `_safe_map(series, mapping, default_value)` from src/preprocess.py:
map categorical strings to numbers, unknown values to the default. -/
def safe_map (cells : List Cell) (mapping : List (String × ℚ))
    (default_value : ℚ) : List Cell :=
  fillna (seriesMapDict cells mapping) default_value

/-- One guarded encoding statement of `preprocess_inherited`:
`if name in df.columns: df[name] = _safe_map(df[name], mapping, d)`. -/
def encodeStep (df : DataFrame) (name : String) (mapping : List (String × ℚ))
    (d : ℚ) : DataFrame :=
  if hasCol df name then setCol df name (fun cells => safe_map cells mapping d)
  else df

/-- The body of the median-fill loop for one column:
`df[col] = df[col].fillna(medians[col])` when the column has a median entry
(a NaN entry fills NaN with NaN, a no-op), else `df[col] = df[col].fillna(0)`. -/
def fillValue (medians : List (String × Option ℚ)) (name : String)
    (cells : List Cell) : List Cell :=
  match alookup medians name with
  | some (some m) => fillna cells m
  | some none => cells
  | none => fillna cells 0

/-- The median-fill loop `for col in df.columns: ...` (columns are distinct
in a frame read from CSV, so the loop acts column-wise). -/
def fillStep (df : DataFrame) (medians : List (String × Option ℚ)) : DataFrame :=
  df.map (fun c => (c.1, fillValue medians c.1 c.2))

/-- Number of rows of a frame (length of its first column). -/
def nRows (df : DataFrame) : ℕ :=
  match df with
  | [] => 0
  | c :: _ => c.2.length

/-- `df.reindex(columns=feature_columns, fill_value=0)`: keep exactly the
requested columns in the requested order, creating absent ones filled
with 0. -/
def reindexCols (df : DataFrame) (fc : List String) (fill : ℚ) : DataFrame :=
  fc.map (fun name =>
    match alookup df name with
    | some cells => (name, cells)
    | none => (name, List.replicate (nRows df) (Cell.num fill)))

/-- `preprocess_inherited(df, feature_columns, train_features_df)` from
src/preprocess.py.  The leading `df = df.copy()` gives the body value
semantics over the caller's table; the steps then rewrite the copy. -/
def preprocess_inherited (df : DataFrame) (feature_columns : List String)
    (train_features_df : DataFrame) : DataFrame :=
  let df1 := encodeStep df "BsmtExposure" BSMT_EXPOSURE_MAP 0
  let df2 := encodeStep df1 "BsmtFinType1" BSMT_FIN_MAP 0
  let df3 := encodeStep df2 "GarageFinish" GARAGE_FINISH_MAP 0
  let df4 := encodeStep df3 "KitchenQual" KITCHEN_QUAL_MAP 3
  let medians := frameMedians train_features_df
  let df5 := fillStep df4 medians
  reindexCols df5 feature_columns 0

/-- The default cell `float(defaults.get(col, 0))` of `build_feature_frame`:
the column's training median when the medians series has a numeric entry,
NaN when the entry is NaN, 0 when the series has no entry. -/
def defaultCell (defaults : List (String × Option ℚ)) (col : String) : Cell :=
  match alookup defaults col with
  | some (some m) => Cell.num m
  | some none => Cell.missing
  | none => Cell.num 0

/-- The first loop of `build_feature_frame`:
`for col in feature_columns: row[col] = float(defaults.get(col, 0))`. -/
def rowFromDefaults (feature_columns : List String)
    (defaults : List (String × Option ℚ)) : List (String × Cell) :=
  feature_columns.foldl (fun r col => dictInsert r col (defaultCell defaults col)) []

/-- The second loop of `build_feature_frame`:
`for key, value in user_values.items(): if key in row: row[key] = value`. -/
def applyUserValues (row : List (String × Cell))
    (user_values : List (String × ℚ)) : List (String × Cell) :=
  user_values.foldl
    (fun r kv => if hasCol r kv.1 then dictInsert r kv.1 (Cell.num kv.2) else r) row

/-- Final cell of `build_feature_frame` for one column:
`pd.DataFrame([row], columns=feature_columns)` places the row's value (NaN
for a column absent from the dict), and `fillna(0)` turns NaN into 0. -/
def finalizeCell (row : List (String × Cell)) (col : String) : Cell :=
  match alookup row col with
  | some Cell.missing => Cell.num 0
  | some c => c
  | none => Cell.num 0

/-- `build_feature_frame(user_values, feature_columns, train_features_df)`
from src/preprocess.py: the single output row as an ordered list of
(column, cell) pairs. -/
def build_feature_frame (user_values : List (String × ℚ))
    (feature_columns : List String) (train_features_df : DataFrame) :
    List (String × Cell) :=
  let defaults := frameMedians train_features_df
  let row := rowFromDefaults feature_columns defaults
  let row' := applyUserValues row user_values
  feature_columns.map (fun col => (col, finalizeCell row' col))

/-- Python error values that the schema loader can surface. -/
inductive PyError where
  /-- pandas `KeyError`, raised by `df.drop(label, axis=1)` when the label
  is absent. -/
  | keyError (label : String)
  /-- Modelled from the spec: the `SchemaError` kind §7 of the spec demands
  for a missing target column; no such class exists in the source. -/
  | schemaError
deriving DecidableEq, Repr

/-- `df.drop(label, axis=1)`: remove the column, raising `KeyError` when it
is absent (default `errors="raise"`). -/
def dropColumn (df : DataFrame) (label : String) : Except PyError DataFrame :=
  if hasCol df label then Except.ok (df.filter (fun c => !(c.1 == label)))
  else Except.error (PyError.keyError label)

/-- `load_training_data` from app_pages/predictor.py, taking the parsed
training table as input: derives the feature-column sequence and the
feature frame by dropping the target column `SalePrice` twice. -/
def load_training_data (clean_train : DataFrame) :
    Except PyError (List String × DataFrame) := do
  let dropped ← dropColumn clean_train "SalePrice"
  let feature_cols := dropped.map Prod.fst
  let train_features ← dropColumn clean_train "SalePrice"
  pure (feature_cols, train_features)

/-- The call `preprocess_inherited(df, ...)` as the caller observes it: the
function receives the caller's table, the body rebinds `df` to a copy
(`df = df.copy()`) and rewrites only the copy; the pair returned is
(function result, the caller's table after the call). -/
def preprocess_inherited_call (df : DataFrame) (feature_columns : List String)
    (train_features_df : DataFrame) : DataFrame × DataFrame :=
  let local_df := df
  let local_df1 := encodeStep local_df "BsmtExposure" BSMT_EXPOSURE_MAP 0
  let local_df2 := encodeStep local_df1 "BsmtFinType1" BSMT_FIN_MAP 0
  let local_df3 := encodeStep local_df2 "GarageFinish" GARAGE_FINISH_MAP 0
  let local_df4 := encodeStep local_df3 "KitchenQual" KITCHEN_QUAL_MAP 3
  let medians := frameMedians train_features_df
  let local_df5 := fillStep local_df4 medians
  (reindexCols local_df5 feature_columns 0, df)

/-- Every column of the frame has the frame's row count. -/
def WF (df : DataFrame) : Prop :=
  ∀ c ∈ df, c.2.length = nRows df

/-- Cell of a frame at a named column (first occurrence) and row index. -/
def getCell (df : DataFrame) (name : String) (i : ℕ) : Option Cell :=
  (alookup df name).bind (fun cs => cs.get? i)

/-- The names of the four recognized categorical columns. -/
def catNames : List String :=
  ["BsmtExposure", "BsmtFinType1", "GarageFinish", "KitchenQual"]

/-- Per-cell action of `_safe_map`: a known label becomes its rank, any
other cell (unknown label, number, missing) becomes the default rank. -/
def encodeCell (mapping : List (String × ℚ)) (d : ℚ) (c : Cell) : Cell :=
  match c with
  | .str s =>
    match alookup mapping s with
    | some v => .num v
    | none => .num d
  | _ => .num d

/-- Combined per-column action of the four guarded encoding statements of
`preprocess_inherited`: the recognized categorical columns are mapped by
their table, every other column is untouched. -/
def encTrans (k : String) (cells : List Cell) : List Cell :=
  if k = "BsmtExposure" then safe_map cells BSMT_EXPOSURE_MAP 0
  else if k = "BsmtFinType1" then safe_map cells BSMT_FIN_MAP 0
  else if k = "GarageFinish" then safe_map cells GARAGE_FINISH_MAP 0
  else if k = "KitchenQual" then safe_map cells KITCHEN_QUAL_MAP 3
  else cells

/-! ### Basic lookup lemmas -/

theorem alookup_eq_none_iff {α : Type} (l : List (String × α)) (k : String) :
    alookup l k = none ↔ k ∉ l.map Prod.fst := by
  induction l with
  | nil => simp [alookup]
  | cons p r ih =>
    by_cases h : p.1 = k
    · subst h; simp [alookup]
    · simp only [alookup, h, if_false, List.map_cons, List.mem_cons, ih]
      constructor
      · intro hk
        push_neg
        exact ⟨fun he => h he.symm, hk⟩
      · intro hk
        push_neg at hk
        exact hk.2

theorem hasCol_iff {α : Type} (l : List (String × α)) (k : String) :
    hasCol l k = true ↔ k ∈ l.map Prod.fst := by
  simp only [hasCol, List.any_eq_true, List.mem_map, beq_iff_eq]

theorem alookup_isSome_of_hasCol {α : Type} (l : List (String × α)) (k : String)
    (h : hasCol l k = true) : ∃ v, alookup l k = some v := by
  have hk := (hasCol_iff l k).mp h
  cases hv : alookup l k with
  | none => exact absurd hk ((alookup_eq_none_iff l k).mp hv)
  | some v => exact ⟨v, rfl⟩

theorem alookup_eq_none_of_not_hasCol {α : Type} (l : List (String × α)) (k : String)
    (h : hasCol l k = false) : alookup l k = none := by
  refine (alookup_eq_none_iff l k).mpr (fun hk => ?_)
  rw [(hasCol_iff l k).mpr hk] at h
  cases h

theorem alookup_dictInsert {α : Type} (r : List (String × α)) (k k' : String) (v : α) :
    alookup (dictInsert r k v) k' = if k' = k then some v else alookup r k' := by
  induction r with
  | nil =>
    by_cases h : k' = k
    · subst h; simp [dictInsert, alookup]
    · have h2 : ¬ k = k' := fun hh => h hh.symm
      simp [dictInsert, alookup, h, h2]
  | cons p rest ih =>
    by_cases hp : p.1 = k
    · by_cases h : k' = k
      · subst h; simp [dictInsert, alookup, hp]
      · have h2 : ¬ k = k' := fun hh => h hh.symm
        have h3 : ¬ p.1 = k' := fun hh => h2 (hp.symm.trans hh)
        simp [dictInsert, alookup, hp, h, h2, h3]
    · by_cases hpk : p.1 = k'
      · have h : ¬ k' = k := fun hh => hp (hpk.trans hh)
        simp [dictInsert, alookup, hp, hpk, h]
      · simp [dictInsert, alookup, hp, hpk, ih]

theorem dictInsert_map_fst_of_mem {α : Type} (r : List (String × α)) (k : String) (v : α)
    (h : k ∈ r.map Prod.fst) : (dictInsert r k v).map Prod.fst = r.map Prod.fst := by
  induction r with
  | nil => simp at h
  | cons p rest ih =>
    by_cases hp : p.1 = k
    · simp [dictInsert, hp]
    · simp only [List.map_cons, List.mem_cons] at h
      rcases h with h | h
      · exact absurd h.symm hp
      · simp [dictInsert, hp, ih h]

theorem alookup_map_snd {α β : Type} (l : List (String × α)) (g : String → α → β)
    (k : String) :
    alookup (l.map (fun c => (c.1, g c.1 c.2))) k = (alookup l k).map (g k) := by
  induction l with
  | nil => simp [alookup]
  | cons p rest ih =>
    by_cases hp : p.1 = k
    · subst hp; simp [alookup]
    · simp [alookup, hp, ih]

theorem alookup_setCol (df : DataFrame) (n : String) (f : List Cell → List Cell)
    (k : String) :
    alookup (setCol df n f) k =
      if k = n then (alookup df k).map f else alookup df k := by
  induction df with
  | nil => by_cases h : k = n <;> simp [setCol, alookup, h]
  | cons p rest ih =>
    simp only [setCol, List.map_cons] at ih ⊢
    by_cases hp : p.1 = n
    · by_cases hpk : p.1 = k
      · subst hpk; simp [alookup, hp]
      · have hnk : ¬ n = k := fun hh => hpk (hp.trans hh)
        have hkn : ¬ k = n := fun hh => hnk hh.symm
        simp [alookup, hp, hpk, hnk, hkn, ih]
    · by_cases hpk : p.1 = k
      · subst hpk; simp [alookup, hp]
      · simp [alookup, hp, hpk, ih]

theorem setCol_map_fst (df : DataFrame) (n : String) (f : List Cell → List Cell) :
    (setCol df n f).map Prod.fst = df.map Prod.fst := by
  induction df with
  | nil => rfl
  | cons p rest ih =>
    simp only [setCol, List.map_cons] at ih ⊢
    by_cases hp : p.1 = n <;> simp [hp, ih]

/-! ### Cell-level behaviour of the encoding and filling primitives -/

theorem safe_map_eq_map (cells : List Cell) (m : List (String × ℚ)) (d : ℚ) :
    safe_map cells m d = cells.map (encodeCell m d) := by
  induction cells with
  | nil => rfl
  | cons c rest ih =>
    simp only [safe_map, seriesMapDict, fillna, List.map_cons] at ih ⊢
    rw [ih]
    congr 1
    cases c with
    | num q => rfl
    | str s => cases h : alookup m s <;> simp [encodeCell, h]
    | missing => rfl

theorem encodeCell_isNum (m : List (String × ℚ)) (d : ℚ) (c : Cell) :
    ∃ q, encodeCell m d c = Cell.num q := by
  cases c with
  | num q => exact ⟨d, rfl⟩
  | str s => cases h : alookup m s <;> simp [encodeCell, h]
  | missing => exact ⟨d, rfl⟩

theorem encodeCell_unknown (m : List (String × ℚ)) (d : ℚ) (c : Cell)
    (h : ∀ s, c = Cell.str s → alookup m s = none) :
    encodeCell m d c = Cell.num d := by
  cases c with
  | num q => rfl
  | str s => simp [encodeCell, h s rfl]
  | missing => rfl

theorem safe_map_length (cells : List Cell) (m : List (String × ℚ)) (d : ℚ) :
    (safe_map cells m d).length = cells.length := by
  rw [safe_map_eq_map]; exact List.length_map _ _

theorem safe_map_get? (cells : List Cell) (m : List (String × ℚ)) (d : ℚ) (i : ℕ) :
    (safe_map cells m d).get? i = (cells.get? i).map (encodeCell m d) := by
  rw [safe_map_eq_map]; exact List.get?_map _ _ _

theorem fillna_get? (cells : List Cell) (v : ℚ) (i : ℕ) :
    (fillna cells v).get? i =
      (cells.get? i).map (fun c => if c = Cell.missing then Cell.num v else c) := by
  unfold fillna; exact List.get?_map _ _ _

theorem fillna_length (cells : List Cell) (v : ℚ) :
    (fillna cells v).length = cells.length := List.length_map _ _

theorem fillna_not_missing (cells : List Cell) (v : ℚ) (c : Cell)
    (h : c ∈ fillna cells v) : c ≠ Cell.missing := by
  unfold fillna at h
  rcases List.mem_map.mp h with ⟨c0, _, hc⟩
  by_cases h0 : c0 = Cell.missing <;> simp [h0] at hc <;> rw [← hc] <;> simp [h0]

theorem fillValue_length (medians : List (String × Option ℚ)) (name : String)
    (cells : List Cell) : (fillValue medians name cells).length = cells.length := by
  unfold fillValue
  cases h : alookup medians name with
  | none => exact fillna_length _ _
  | some o => cases o with
    | none => rfl
    | some m => exact fillna_length _ _

/-! ### Column-level behaviour of the three steps of preprocess_inherited -/

theorem alookup_encodeStep (df : DataFrame) (n : String) (m : List (String × ℚ))
    (d : ℚ) (k : String) :
    alookup (encodeStep df n m d) k =
      if k = n then (alookup df k).map (fun cs => safe_map cs m d)
      else alookup df k := by
  unfold encodeStep
  by_cases h : hasCol df n
  · simp [h, alookup_setCol]
  · have h0 : hasCol df n = false := by
      cases hb : hasCol df n
      · rfl
      · exact absurd hb h
    simp only [h0, Bool.false_eq_true, if_false]
    by_cases hk : k = n
    · subst hk
      simp [alookup_eq_none_of_not_hasCol df k h0]
    · simp [hk]

theorem encodeStep_map_fst (df : DataFrame) (n : String) (m : List (String × ℚ))
    (d : ℚ) :
    (encodeStep df n m d).map Prod.fst = df.map Prod.fst := by
  unfold encodeStep
  by_cases h : hasCol df n
  · simp [h, setCol_map_fst]
  · simp [h]

theorem alookup_fillStep (df : DataFrame) (medians : List (String × Option ℚ))
    (k : String) :
    alookup (fillStep df medians) k = (alookup df k).map (fillValue medians k) := by
  unfold fillStep
  exact alookup_map_snd df (fillValue medians) k

theorem fillStep_map_fst (df : DataFrame) (medians : List (String × Option ℚ)) :
    (fillStep df medians).map Prod.fst = df.map Prod.fst := by
  unfold fillStep
  rw [List.map_map]
  rfl

theorem reindexCols_map_fst (df : DataFrame) (fc : List String) (fill : ℚ) :
    (reindexCols df fc fill).map Prod.fst = fc := by
  induction fc with
  | nil => rfl
  | cons name rest ih =>
    simp only [reindexCols, List.map_cons] at ih ⊢
    rw [ih]
    cases h : alookup df name <;> simp [h]

theorem alookup_reindexCols (df : DataFrame) (fc : List String) (fill : ℚ)
    (k : String) :
    alookup (reindexCols df fc fill) k =
      if k ∈ fc then
        some (match alookup df k with
              | some cs => cs
              | none => List.replicate (nRows df) (Cell.num fill))
      else none := by
  induction fc with
  | nil => simp [reindexCols, alookup]
  | cons name rest ih =>
    by_cases hk : name = k
    · subst hk
      cases h : alookup df name <;> simp [reindexCols, alookup, h]
    · have hk2 : ¬ k = name := fun hh => hk hh.symm
      cases h : alookup df name <;>
        simp only [reindexCols, List.map_cons, h] at ih ⊢ <;>
        simp [alookup, hk, hk2, ih]

/-! ### The encoding chain, column by column -/

theorem alookup_mem {α : Type} (l : List (String × α)) (k : String) (v : α)
    (h : alookup l k = some v) : (k, v) ∈ l := by
  induction l with
  | nil => simp [alookup] at h
  | cons p rest ih =>
    by_cases hp : p.1 = k
    · simp only [alookup, hp, if_pos] at h
      cases h
      have hpp : (k, p.2) = p := by rw [← hp]
      rw [hpp]
      exact List.mem_cons_self p rest
    · simp only [alookup, hp, if_neg, if_false] at h
      exact List.mem_cons_of_mem _ (ih h)

theorem encTrans_length (k : String) (cells : List Cell) :
    (encTrans k cells).length = cells.length := by
  unfold encTrans
  split_ifs <;> simp [safe_map_length]

theorem encTrans_other (k : String) (cells : List Cell) (h : k ∉ catNames) :
    encTrans k cells = cells := by
  simp only [catNames, List.mem_cons, List.mem_singleton, not_or] at h
  obtain ⟨h1, h2, h3, h4, -⟩ := h
  unfold encTrans
  rw [if_neg h1, if_neg h2, if_neg h3, if_neg h4]

theorem alookup_encChain (df : DataFrame) (k : String) :
    alookup
      (encodeStep
        (encodeStep
          (encodeStep (encodeStep df "BsmtExposure" BSMT_EXPOSURE_MAP 0)
            "BsmtFinType1" BSMT_FIN_MAP 0)
          "GarageFinish" GARAGE_FINISH_MAP 0)
        "KitchenQual" KITCHEN_QUAL_MAP 3) k
      = (alookup df k).map (encTrans k) := by
  by_cases h1 : k = "BsmtExposure"
  · subst h1
    rw [alookup_encodeStep, if_neg (by decide), alookup_encodeStep, if_neg (by decide),
      alookup_encodeStep, if_neg (by decide), alookup_encodeStep, if_pos rfl]
    have he : encTrans "BsmtExposure" = fun cs => safe_map cs BSMT_EXPOSURE_MAP 0 := by
      funext cs; unfold encTrans; rw [if_pos rfl]
    rw [he]
  · by_cases h2 : k = "BsmtFinType1"
    · subst h2
      rw [alookup_encodeStep, if_neg (by decide), alookup_encodeStep, if_neg (by decide),
        alookup_encodeStep, if_pos rfl, alookup_encodeStep, if_neg (by decide)]
      have he : encTrans "BsmtFinType1" = fun cs => safe_map cs BSMT_FIN_MAP 0 := by
        funext cs; unfold encTrans; rw [if_neg (by decide), if_pos rfl]
      rw [he]
    · by_cases h3 : k = "GarageFinish"
      · subst h3
        rw [alookup_encodeStep, if_neg (by decide), alookup_encodeStep, if_pos rfl,
          alookup_encodeStep, if_neg (by decide), alookup_encodeStep, if_neg (by decide)]
        have he : encTrans "GarageFinish" = fun cs => safe_map cs GARAGE_FINISH_MAP 0 := by
          funext cs; unfold encTrans
          rw [if_neg (by decide), if_neg (by decide), if_pos rfl]
        rw [he]
      · by_cases h4 : k = "KitchenQual"
        · subst h4
          rw [alookup_encodeStep, if_pos rfl, alookup_encodeStep, if_neg (by decide),
            alookup_encodeStep, if_neg (by decide), alookup_encodeStep, if_neg (by decide)]
          have he : encTrans "KitchenQual" = fun cs => safe_map cs KITCHEN_QUAL_MAP 3 := by
            funext cs; unfold encTrans
            rw [if_neg (by decide), if_neg (by decide), if_neg (by decide), if_pos rfl]
          rw [he]
        · rw [alookup_encodeStep, if_neg h4, alookup_encodeStep, if_neg h3,
            alookup_encodeStep, if_neg h2, alookup_encodeStep, if_neg h1]
          have he : k ∉ catNames := by
            simp [catNames, h1, h2, h3, h4]
          cases hl : alookup df k with
          | none => rfl
          | some cs => simp [encTrans_other k cs he]

theorem alookup_preprocess (df : DataFrame) (fc : List String) (tf : DataFrame)
    (k : String) :
    alookup (preprocess_inherited df fc tf) k =
      if k ∈ fc then
        some (match (alookup df k).map
                (fun cs => fillValue (frameMedians tf) k (encTrans k cs)) with
              | some cs => cs
              | none =>
                List.replicate
                  (nRows (fillStep
                    (encodeStep
                      (encodeStep
                        (encodeStep (encodeStep df "BsmtExposure" BSMT_EXPOSURE_MAP 0)
                          "BsmtFinType1" BSMT_FIN_MAP 0)
                        "GarageFinish" GARAGE_FINISH_MAP 0)
                      "KitchenQual" KITCHEN_QUAL_MAP 3) (frameMedians tf)))
                  (Cell.num 0))
      else none := by
  unfold preprocess_inherited
  rw [alookup_reindexCols]
  by_cases hk : k ∈ fc
  · simp only [hk, if_pos]
    rw [alookup_fillStep, alookup_encChain]
    cases hl : alookup df k with
    | none => simp
    | some cs => simp
  · simp [hk]

/-! ### The row dictionary of build_feature_frame -/

theorem hasCol_true_iff_alookup {α : Type} (l : List (String × α)) (k : String) :
    hasCol l k = true ↔ ∃ v, alookup l k = some v := by
  constructor
  · exact alookup_isSome_of_hasCol l k
  · rintro ⟨v, hv⟩
    exact (hasCol_iff l k).mpr (List.mem_map.mpr ⟨(k, v), alookup_mem l k v hv, rfl⟩)

theorem hasCol_eq_of_map_fst {α β : Type} (l : List (String × α))
    (l' : List (String × β)) (h : l.map Prod.fst = l'.map Prod.fst) (k : String) :
    hasCol l k = hasCol l' k := by
  cases hb : hasCol l' k with
  | false =>
    cases hbl : hasCol l k with
    | false => rfl
    | true =>
      exfalso
      have hm := (hasCol_iff l k).mp hbl
      rw [h] at hm
      rw [(hasCol_iff l' k).mpr hm] at hb
      cases hb
  | true =>
    have hm := (hasCol_iff l' k).mp hb
    rw [← h] at hm
    exact (hasCol_iff l k).mpr hm

theorem alookup_rowFromDefaults_general (fc : List String)
    (defaults : List (String × Option ℚ)) (r0 : List (String × Cell)) (col : String) :
    alookup (fc.foldl (fun r c => dictInsert r c (defaultCell defaults c)) r0) col =
      if col ∈ fc then some (defaultCell defaults col) else alookup r0 col := by
  induction fc generalizing r0 with
  | nil => simp
  | cons c rest ih =>
    simp only [List.foldl_cons]
    rw [ih]
    by_cases hc : col ∈ rest
    · simp [hc]
    · by_cases he : col = c
      · subst he
        simp [hc, alookup_dictInsert]
      · simp [hc, he, alookup_dictInsert]

theorem alookup_rowFromDefaults (fc : List String)
    (defaults : List (String × Option ℚ)) (col : String) :
    alookup (rowFromDefaults fc defaults) col =
      if col ∈ fc then some (defaultCell defaults col) else none := by
  unfold rowFromDefaults
  rw [alookup_rowFromDefaults_general]
  rfl

theorem applyUserValues_cons (row : List (String × Cell)) (kv : String × ℚ)
    (rest : List (String × ℚ)) :
    applyUserValues row (kv :: rest) =
      applyUserValues
        (if hasCol row kv.1 then dictInsert row kv.1 (Cell.num kv.2) else row) rest := rfl

theorem applyUserValues_map_fst (uv : List (String × ℚ)) (row : List (String × Cell)) :
    (applyUserValues row uv).map Prod.fst = row.map Prod.fst := by
  induction uv generalizing row with
  | nil => rfl
  | cons kv rest ih =>
    rw [applyUserValues_cons, ih]
    by_cases h : hasCol row kv.1
    · simp only [h, if_pos]
      exact dictInsert_map_fst_of_mem _ _ _ ((hasCol_iff _ _).mp h)
    · simp [h]

theorem alookup_applyUserValues (uv : List (String × ℚ)) (row : List (String × Cell))
    (col : String) (hnd : (uv.map Prod.fst).Nodup) :
    alookup (applyUserValues row uv) col =
      match alookup uv col, hasCol row col with
      | some u, true => some (Cell.num u)
      | _, _ => alookup row col := by
  induction uv generalizing row with
  | nil =>
    cases hb : hasCol row col <;> rfl
  | cons kv rest ih =>
    simp only [List.map_cons, List.nodup_cons] at hnd
    obtain ⟨hk, hnd'⟩ := hnd
    rw [applyUserValues_cons, ih _ hnd']
    have hre0 : alookup rest kv.1 = none := (alookup_eq_none_iff _ _).mpr hk
    have hstep_fst :
        (if hasCol row kv.1 then dictInsert row kv.1 (Cell.num kv.2) else row).map
            Prod.fst = row.map Prod.fst := by
      by_cases h : hasCol row kv.1
      · simp only [h, if_pos]
        exact dictInsert_map_fst_of_mem _ _ _ ((hasCol_iff _ _).mp h)
      · simp [h]
    have hstep_has :
        hasCol (if hasCol row kv.1 then dictInsert row kv.1 (Cell.num kv.2) else row)
          col = hasCol row col :=
      hasCol_eq_of_map_fst _ _ hstep_fst col
    by_cases hcol : kv.1 = col
    · subst hcol
      have hre : alookup rest kv.1 = none := hre0
      rw [hre, hstep_has]
      cases hb : hasCol row kv.1 with
      | false =>
        simp only [hb, Bool.false_eq_true, if_false]
        have h1 : alookup (kv :: rest) kv.1 = some kv.2 := by
          simp [alookup]
        rw [h1]
      | true =>
        simp only [hb, if_pos]
        have h1 : alookup (kv :: rest) kv.1 = some kv.2 := by
          simp [alookup]
        rw [h1]
        rw [alookup_dictInsert]
        simp
    · have h1 : alookup (kv :: rest) col = alookup rest col := by
        simp [alookup, hcol]
      rw [h1, hstep_has]
      have h2 :
          alookup (if hasCol row kv.1 then dictInsert row kv.1 (Cell.num kv.2) else row)
            col = alookup row col := by
        by_cases h : hasCol row kv.1
        · simp only [h, if_pos]
          rw [alookup_dictInsert]
          exact if_neg (fun hh => hcol hh.symm)
        · simp [h]
      rw [h2]

theorem alookup_diag_map (fc : List String) (g : String → Cell) (k : String) :
    alookup (fc.map (fun col => (col, g col))) k =
      if k ∈ fc then some (g k) else none := by
  induction fc with
  | nil => simp [alookup]
  | cons c rest ih =>
    by_cases hc : c = k
    · subst hc
      simp [alookup]
    · have hc2 : ¬ k = c := fun hh => hc hh.symm
      simp [alookup, hc, hc2, ih]

/-! ### Further helper lemmas -/

theorem finalizeCell_ne_missing (r : List (String × Cell)) (c : String) :
    finalizeCell r c ≠ Cell.missing := by
  unfold finalizeCell
  cases h : alookup r c with
  | none => simp
  | some cell => cases cell <;> simp

theorem safe_map_mem_num (cells : List Cell) (m : List (String × ℚ)) (d : ℚ)
    (c : Cell) (hc : c ∈ safe_map cells m d) : ∃ q, c = Cell.num q := by
  rw [safe_map_eq_map] at hc
  rcases List.mem_map.mp hc with ⟨c0, -, hc0⟩
  rcases encodeCell_isNum m d c0 with ⟨q, hq⟩
  exact ⟨q, by rw [← hc0, hq]⟩

theorem fillna_of_no_missing (cells : List Cell) (v : ℚ)
    (h : ∀ c ∈ cells, c ≠ Cell.missing) : fillna cells v = cells := by
  induction cells with
  | nil => rfl
  | cons c rest ih =>
    simp only [fillna, List.map_cons]
    rw [if_neg (h c (List.mem_cons_self c rest))]
    have := ih (fun c' hc' => h c' (List.mem_cons_of_mem c hc'))
    simp only [fillna] at this
    rw [this]

theorem fillValue_of_no_missing (medians : List (String × Option ℚ)) (name : String)
    (cells : List Cell) (h : ∀ c ∈ cells, c ≠ Cell.missing) :
    fillValue medians name cells = cells := by
  unfold fillValue
  cases alookup medians name with
  | none => exact fillna_of_no_missing cells 0 h
  | some o =>
    cases o with
    | none => rfl
    | some m => exact fillna_of_no_missing cells m h

theorem fillValue_get?_of_ne (medians : List (String × Option ℚ)) (name : String)
    (cells : List Cell) (i : ℕ) (c : Cell) (h : cells.get? i = some c)
    (hc : c ≠ Cell.missing) : (fillValue medians name cells).get? i = some c := by
  unfold fillValue
  cases alookup medians name with
  | none => rw [fillna_get?, h]; simp [hc]
  | some o =>
    cases o with
    | none => exact h
    | some m => rw [fillna_get?, h]; simp [hc]

theorem map_eq_replicate_of_all {α β : Type} (l : List α) (f : α → β) (b : β)
    (h : ∀ a ∈ l, f a = b) : l.map f = List.replicate l.length b := by
  induction l with
  | nil => rfl
  | cons x xs ih =>
    simp only [List.map_cons, List.length_cons, List.replicate_succ]
    rw [h x (List.mem_cons_self x xs),
      ih (fun a ha => h a (List.mem_cons_of_mem x ha))]

theorem encTrans_kitchen (cells : List Cell) :
    encTrans "KitchenQual" cells = safe_map cells KITCHEN_QUAL_MAP 3 := by
  unfold encTrans
  rw [if_neg (by decide), if_neg (by decide), if_neg (by decide), if_pos rfl]

theorem nRows_encodeStep (df : DataFrame) (n : String) (m : List (String × ℚ))
    (d : ℚ) : nRows (encodeStep df n m d) = nRows df := by
  unfold encodeStep
  by_cases h : hasCol df n
  · simp only [h, if_pos]
    cases df with
    | nil => rfl
    | cons c rest =>
      simp only [setCol, List.map_cons]
      by_cases hc : c.1 = n <;> simp [hc, nRows, safe_map_length]
  · simp [h]

theorem nRows_fillStep (df : DataFrame) (medians : List (String × Option ℚ)) :
    nRows (fillStep df medians) = nRows df := by
  cases df with
  | nil => rfl
  | cons c rest => simp [fillStep, nRows, fillValue_length]

theorem nRows_chain (df : DataFrame) (medians : List (String × Option ℚ)) :
    nRows (fillStep
      (encodeStep
        (encodeStep
          (encodeStep (encodeStep df "BsmtExposure" BSMT_EXPOSURE_MAP 0)
            "BsmtFinType1" BSMT_FIN_MAP 0)
          "GarageFinish" GARAGE_FINISH_MAP 0)
        "KitchenQual" KITCHEN_QUAL_MAP 3) medians) = nRows df := by
  rw [nRows_fillStep, nRows_encodeStep, nRows_encodeStep, nRows_encodeStep,
    nRows_encodeStep]

theorem hasCol_applyStep (row : List (String × Cell)) (kv : String × ℚ) (k : String) :
    hasCol (if hasCol row kv.1 then dictInsert row kv.1 (Cell.num kv.2) else row) k =
      hasCol row k := by
  by_cases hb : hasCol row kv.1
  · simp only [hb, if_pos]
    exact hasCol_eq_of_map_fst _ _
      (dictInsert_map_fst_of_mem _ _ _ ((hasCol_iff _ _).mp hb)) k
  · simp [hb]

theorem applyUserValues_filter_eq (uv : List (String × ℚ))
    (row : List (String × Cell)) (P : String → Bool)
    (h : ∀ k, hasCol row k = P k) :
    applyUserValues row (uv.filter (fun p => P p.1)) = applyUserValues row uv := by
  induction uv generalizing row with
  | nil => rfl
  | cons kv rest ih =>
    cases hP : P kv.1 with
    | true =>
      have hfil : (kv :: rest).filter (fun p => P p.1) =
          kv :: rest.filter (fun p => P p.1) := by
        simp [List.filter, hP]
      rw [hfil, applyUserValues_cons, applyUserValues_cons]
      apply ih
      intro k
      rw [hasCol_applyStep, h k]
    | false =>
      have hfil : (kv :: rest).filter (fun p => P p.1) =
          rest.filter (fun p => P p.1) := by
        simp [List.filter, hP]
      rw [hfil, applyUserValues_cons]
      have hb : hasCol row kv.1 = false := by rw [h kv.1, hP]
      simp only [hb, Bool.false_eq_true, if_false]
      exact ih row h

theorem hasCol_rowFromDefaults (fc : List String)
    (defaults : List (String × Option ℚ)) (k : String) :
    hasCol (rowFromDefaults fc defaults) k = fc.contains k := by
  by_cases hk : k ∈ fc
  · have h1 : hasCol (rowFromDefaults fc defaults) k = true :=
      (hasCol_true_iff_alookup _ _).mpr
        ⟨_, by rw [alookup_rowFromDefaults, if_pos hk]⟩
    rw [h1]
    symm
    exact List.elem_eq_true_of_mem hk
  · have h1 : alookup (rowFromDefaults fc defaults) k = none := by
      rw [alookup_rowFromDefaults, if_neg hk]
    cases hb : hasCol (rowFromDefaults fc defaults) k with
    | false =>
      symm
      cases hc : fc.contains k with
      | false => rfl
      | true => exact absurd (List.mem_of_elem_eq_true hc) hk
    | true =>
      rcases alookup_isSome_of_hasCol _ _ hb with ⟨v, hv⟩
      rw [h1] at hv
      cases hv

/-! ### Claims -/

/-- C1: for every name in feature_names, the value build_feature_frame assigns
to that column follows the precedence chain: it equals user_values[name] when
name is a key of user_values; otherwise it equals the training-set median of
that column when a median exists for name; otherwise it equals 0. -/
theorem C1_build_feature_frame_precedence
    (user_values : List (String × ℚ)) (feature_columns : List String)
    (train_features_df : DataFrame) (name : String)
    (hname : name ∈ feature_columns)
    (hnd : (user_values.map Prod.fst).Nodup) :
    alookup (build_feature_frame user_values feature_columns train_features_df)
        name =
      some (Cell.num
        (match alookup user_values name with
         | some u => u
         | none =>
           match alookup (frameMedians train_features_df) name with
           | some (some m) => m
           | _ => 0)) := by
  simp only [build_feature_frame]
  rw [alookup_diag_map feature_columns
    (finalizeCell
      (applyUserValues
        (rowFromDefaults feature_columns (frameMedians train_features_df))
        user_values)), if_pos hname]
  have hrow := alookup_rowFromDefaults feature_columns
    (frameMedians train_features_df) name
  rw [if_pos hname] at hrow
  have hhc : hasCol
      (rowFromDefaults feature_columns (frameMedians train_features_df)) name =
      true :=
    (hasCol_true_iff_alookup _ _).mpr ⟨_, hrow⟩
  have happ := alookup_applyUserValues user_values
    (rowFromDefaults feature_columns (frameMedians train_features_df)) name hnd
  rw [hhc, hrow] at happ
  cases huv : alookup user_values name with
  | some u =>
    rw [huv] at happ
    have happ2 : alookup
        (applyUserValues
          (rowFromDefaults feature_columns (frameMedians train_features_df))
          user_values) name = some (Cell.num u) := by rw [happ]
    have hfin : finalizeCell
        (applyUserValues
          (rowFromDefaults feature_columns (frameMedians train_features_df))
          user_values) name = Cell.num u := by
      unfold finalizeCell
      rw [happ2]
    rw [hfin]
  | none =>
    rw [huv] at happ
    have happ2 : alookup
        (applyUserValues
          (rowFromDefaults feature_columns (frameMedians train_features_df))
          user_values) name =
        some (defaultCell (frameMedians train_features_df) name) := by rw [happ]
    have hfin : finalizeCell
        (applyUserValues
          (rowFromDefaults feature_columns (frameMedians train_features_df))
          user_values) name =
        match alookup (frameMedians train_features_df) name with
        | some (some m) => Cell.num m
        | _ => Cell.num 0 := by
      unfold finalizeCell
      rw [happ2]
      unfold defaultCell
      cases hm : alookup (frameMedians train_features_df) name with
      | none => rfl
      | some o => cases o <;> rfl
    rw [hfin]
    cases hm : alookup (frameMedians train_features_df) name with
    | none => rfl
    | some o => cases o <;> rfl

/-- C1 witness: a concrete instance of the precedence chain (a user-supplied
value overrides a training median). -/
theorem C1_build_feature_frame_precedence_witness :
    alookup (build_feature_frame [("OverallQual", (9 : ℚ))]
        ["OverallQual", "GarageArea"] [("OverallQual", [Cell.num 5])])
        "OverallQual" = some (Cell.num 9) := by
  have h := C1_build_feature_frame_precedence [("OverallQual", (9 : ℚ))]
    ["OverallQual", "GarageArea"] [("OverallQual", [Cell.num 5])] "OverallQual"
    (by decide) (by decide)
  exact h

/-- C2: for any feature_names sequence (including the empty one) and any
user_values mapping, build_feature_frame returns a single row whose columns
are exactly feature_names, in that order, and no cell of the row is
missing. -/
theorem C2_build_feature_frame_columns
    (user_values : List (String × ℚ)) (feature_columns : List String)
    (train_features_df : DataFrame) :
    (build_feature_frame user_values feature_columns train_features_df).map
        Prod.fst = feature_columns ∧
    ∀ p ∈ build_feature_frame user_values feature_columns train_features_df,
      p.2 ≠ Cell.missing := by
  constructor
  · simp only [build_feature_frame, List.map_map]
    exact List.map_id feature_columns
  · intro p hp
    simp only [build_feature_frame, List.mem_map] at hp
    obtain ⟨col, -, hpe⟩ := hp
    rw [← hpe]
    exact finalizeCell_ne_missing _ col

/-- C2 witness: concrete instance, including the empty-sequence edge case. -/
theorem C2_build_feature_frame_columns_witness :
    (build_feature_frame [("GrLivArea", (2 : ℚ))] ["GrLivArea", "LotArea"]
        []).map Prod.fst = ["GrLivArea", "LotArea"] ∧
    (build_feature_frame [("GrLivArea", (2 : ℚ))] [] []).map Prod.fst =
      ([] : List String) := by
  constructor
  · exact (C2_build_feature_frame_columns [("GrLivArea", (2 : ℚ))]
      ["GrLivArea", "LotArea"] []).1
  · exact (C2_build_feature_frame_columns [("GrLivArea", (2 : ℚ))] [] []).1

/-- C7: on the concrete end-to-end example of the spec, build_feature_frame
returns exactly the expected row (user values for OverallQual and GrLivArea,
training medians for GarageArea and YearBuilt). -/
theorem C7_build_feature_frame_example :
    build_feature_frame [("OverallQual", (9 : ℚ)), ("GrLivArea", 2500)]
        ["OverallQual", "GrLivArea", "GarageArea", "YearBuilt"]
        [("OverallQual", [Cell.num 5]), ("GrLivArea", [Cell.num 1500]),
         ("GarageArea", [Cell.num 400]), ("YearBuilt", [Cell.num 2000])] =
      [("OverallQual", Cell.num 9), ("GrLivArea", Cell.num 2500),
       ("GarageArea", Cell.num 400), ("YearBuilt", Cell.num 2000)] := by
  decide

/-- C3 counterexample: on a concrete training table lacking the SalePrice
column, schema derivation fails with the pandas KeyError raised by the
column drop, which is not the SchemaError kind the claim names (no
SchemaError class exists in the source). -/
theorem C3_schema_error_counterexample :
    load_training_data [("GrLivArea", [Cell.num 1])] =
      Except.error (PyError.keyError "SalePrice") ∧
    PyError.keyError "SalePrice" ≠ PyError.schemaError := by
  constructor
  · rfl
  · decide

/-- C3 (amended): when the training table lacks the target column SalePrice,
schema derivation fails with the KeyError raised by the column drop — it is
not a silent empty schema, but the error kind is pandas KeyError, not a
SchemaError. -/
theorem C3_schema_error_amended (clean_train : DataFrame)
    (h : hasCol clean_train "SalePrice" = false) :
    load_training_data clean_train =
      Except.error (PyError.keyError "SalePrice") := by
  unfold load_training_data dropColumn
  rw [h]
  rfl

/-- C3 witness: the amended behaviour on a concrete target-free table. -/
theorem C3_schema_error_amended_witness :
    load_training_data [("LotArea", [Cell.num 9000])] =
      Except.error (PyError.keyError "SalePrice") :=
  C3_schema_error_amended [("LotArea", [Cell.num 9000])] (by decide)

/-- Closed-form lookup of one output column of preprocess_inherited. -/
theorem alookup_preprocess_closed (df : DataFrame) (fc : List String)
    (tf : DataFrame) (k : String) :
    alookup (preprocess_inherited df fc tf) k =
      if k ∈ fc then
        some (match alookup df k with
              | some cs0 => fillValue (frameMedians tf) k (encTrans k cs0)
              | none => List.replicate (nRows df) (Cell.num 0))
      else none := by
  rw [alookup_preprocess]
  by_cases hk : k ∈ fc
  · simp only [hk, if_pos]
    cases halo : alookup df k with
    | none =>
      rw [nRows_chain df (frameMedians tf)]
      rfl
    | some cs0 => rfl
  · simp [hk]

theorem encTrans_spec (name : String) (mapping : List (String × ℚ)) (d : ℚ)
    (hspec : (name, mapping, d) ∈
      [("BsmtExposure", BSMT_EXPOSURE_MAP, (0 : ℚ)),
       ("BsmtFinType1", BSMT_FIN_MAP, 0),
       ("GarageFinish", GARAGE_FINISH_MAP, 0),
       ("KitchenQual", KITCHEN_QUAL_MAP, 3)]) (cells : List Cell) :
    encTrans name cells = safe_map cells mapping d := by
  simp only [List.mem_cons, List.not_mem_nil, or_false, Prod.mk.injEq] at hspec
  rcases hspec with ⟨h1, h2, h3⟩ | ⟨h1, h2, h3⟩ | ⟨h1, h2, h3⟩ | ⟨h1, h2, h3⟩ <;>
    subst h1 <;> subst h2 <;> subst h3 <;> unfold encTrans
  · rw [if_pos rfl]
  · rw [if_neg (by decide), if_pos rfl]
  · rw [if_neg (by decide), if_neg (by decide), if_pos rfl]
  · rw [if_neg (by decide), if_neg (by decide), if_neg (by decide), if_pos rfl]

/-- C5: for each of the four recognized categorical columns that is present in
the raw table (and surviving into feature_names), every cell whose label is
not a key of that column's encoding table — missing cells included — is
replaced by the configured default rank (0 for BsmtExposure, BsmtFinType1 and
GarageFinish, 3 for KitchenQual), never left missing. -/
theorem C5_categorical_default
    (df : DataFrame) (fc : List String) (tf : DataFrame)
    (name : String) (mapping : List (String × ℚ)) (d : ℚ)
    (hspec : (name, mapping, d) ∈
      [("BsmtExposure", BSMT_EXPOSURE_MAP, (0 : ℚ)),
       ("BsmtFinType1", BSMT_FIN_MAP, 0),
       ("GarageFinish", GARAGE_FINISH_MAP, 0),
       ("KitchenQual", KITCHEN_QUAL_MAP, 3)])
    (hfc : name ∈ fc) (i : ℕ) (cell : Cell)
    (hcell : getCell df name i = some cell)
    (hunknown : ∀ s, cell = Cell.str s → alookup mapping s = none) :
    getCell (preprocess_inherited df fc tf) name i = some (Cell.num d) := by
  unfold getCell at hcell
  cases halo : alookup df name with
  | none =>
    rw [halo] at hcell
    simp at hcell
  | some cs0 =>
    rw [halo] at hcell
    have hget : cs0.get? i = some cell := hcell
    have h1 := alookup_preprocess_closed df fc tf name
    rw [if_pos hfc, halo] at h1
    have h1' : alookup (preprocess_inherited df fc tf) name =
        some (fillValue (frameMedians tf) name (encTrans name cs0)) := by
      rw [h1]
    unfold getCell
    rw [h1']
    show (fillValue (frameMedians tf) name (encTrans name cs0)).get? i =
      some (Cell.num d)
    rw [encTrans_spec name mapping d hspec]
    apply fillValue_get?_of_ne
    · rw [safe_map_get?, hget]
      simp [encodeCell_unknown mapping d cell hunknown]
    · simp

/-- C5 witness: a concrete unknown kitchen-quality label becomes the default
rank 3 in the aligned output. -/
theorem C5_categorical_default_witness :
    getCell (preprocess_inherited [("KitchenQual", [Cell.str "XYZ"])]
        ["KitchenQual"] []) "KitchenQual" 0 = some (Cell.num 3) := by
  have h := C5_categorical_default [("KitchenQual", [Cell.str "XYZ"])]
    ["KitchenQual"] [] "KitchenQual" KITCHEN_QUAL_MAP 3 (by decide)
    (by decide) 0 (Cell.str "XYZ") (by decide)
    (by intro s hs; cases hs; decide)
  exact h

/-- C4 counterexample: the claim conditions the fill on membership in
feature_names, but the code conditions it on the training-median table.  For
a raw column Foo with a missing cell, Foo in feature_names but absent from
the training frame, the claim requires the cell to receive Foo's training
median — yet no such median exists and the code fills with 0. -/
theorem C4_numeric_fill_counterexample :
    ("Foo" ∈ ["Foo"] ∧
      getCell [("Foo", [Cell.missing])] "Foo" 0 = some Cell.missing ∧
      getCell (preprocess_inherited [("Foo", [Cell.missing])] ["Foo"]
        [("Bar", [Cell.num 1])]) "Foo" 0 = some (Cell.num 0)) ∧
    ¬ ∃ m : ℚ,
        alookup (frameMedians [("Bar", [Cell.num 1])]) "Foo" = some (some m) ∧
        getCell (preprocess_inherited [("Foo", [Cell.missing])] ["Foo"]
          [("Bar", [Cell.num 1])]) "Foo" 0 = some (Cell.num m) := by
  refine ⟨⟨by decide, by decide, by decide⟩, ?_⟩
  rintro ⟨m, hm, -⟩
  have hn : alookup (frameMedians [("Bar", [Cell.num 1])]) "Foo" = none := by
    decide
  rw [hn] at hm
  cases hm

/-- C4 (amended): in preprocess_inherited, for every non-categorical column
of the raw table that survives into feature_names, a missing cell is filled
with the column's training median when the training-median table has a
numeric entry for the column, is filled with 0 when the table has no entry
for the column, and is left missing when the table's entry is NaN (an
all-missing numeric training column). -/
theorem C4_numeric_fill_amended
    (df : DataFrame) (fc : List String) (tf : DataFrame) (col : String)
    (hfc : col ∈ fc) (hcat : col ∉ catNames) (i : ℕ)
    (hmiss : getCell df col i = some Cell.missing) :
    getCell (preprocess_inherited df fc tf) col i =
      some (match alookup (frameMedians tf) col with
            | some (some m) => Cell.num m
            | some none => Cell.missing
            | none => Cell.num 0) := by
  unfold getCell at hmiss
  cases halo : alookup df col with
  | none =>
    rw [halo] at hmiss
    simp at hmiss
  | some cs0 =>
    rw [halo] at hmiss
    have hget : cs0.get? i = some Cell.missing := hmiss
    have h1 := alookup_preprocess_closed df fc tf col
    rw [if_pos hfc, halo] at h1
    have h1' : alookup (preprocess_inherited df fc tf) col =
        some (fillValue (frameMedians tf) col (encTrans col cs0)) := by
      rw [h1]
    unfold getCell
    rw [h1']
    show (fillValue (frameMedians tf) col (encTrans col cs0)).get? i = _
    rw [encTrans_other col cs0 hcat]
    unfold fillValue
    cases hmed : alookup (frameMedians tf) col with
    | none =>
      rw [fillna_get?, hget]
      rfl
    | some o =>
      cases o with
      | none => rw [hget]
      | some m =>
        rw [fillna_get?, hget]
        rfl

/-- C4 witness: a concrete missing cell receives the training median of its
column (median of 10, 20 and 15 is 15). -/
theorem C4_numeric_fill_amended_witness :
    getCell (preprocess_inherited [("GrLivArea", [Cell.missing])] ["GrLivArea"]
        [("GrLivArea", [Cell.num 10, Cell.num 20, Cell.num 15])]) "GrLivArea"
        0 = some (Cell.num 15) := by
  have h := C4_numeric_fill_amended [("GrLivArea", [Cell.missing])]
    ["GrLivArea"] [("GrLivArea", [Cell.num 10, Cell.num 20, Cell.num 15])]
    "GrLivArea" (by decide) (by decide) 0 (by decide)
  rw [h]
  decide

/-- Structure of one output column of preprocess_inherited, by membership. -/
theorem preprocess_mem (df : DataFrame) (fc : List String) (tf : DataFrame)
    (c : String × List Cell) (hc : c ∈ preprocess_inherited df fc tf) :
    c.1 ∈ fc ∧
    ((∃ cs0, alookup df c.1 = some cs0 ∧
        c.2 = fillValue (frameMedians tf) c.1 (encTrans c.1 cs0)) ∨
     (alookup df c.1 = none ∧
        c.2 = List.replicate (nRows df) (Cell.num 0))) := by
  have hfst : c.1 ∈ fc := by
    have h0 := List.mem_map_of_mem Prod.fst hc
    rw [show (preprocess_inherited df fc tf).map Prod.fst = fc by
      simp only [preprocess_inherited]; exact reindexCols_map_fst _ fc 0] at h0
    exact h0
  refine ⟨hfst, ?_⟩
  simp only [preprocess_inherited] at hc
  unfold reindexCols at hc
  rcases List.mem_map.mp hc with ⟨name, hnm, hge⟩
  have hname : name = c.1 := by
    cases h5 : alookup
        (fillStep
          (encodeStep
            (encodeStep
              (encodeStep (encodeStep df "BsmtExposure" BSMT_EXPOSURE_MAP 0)
                "BsmtFinType1" BSMT_FIN_MAP 0)
              "GarageFinish" GARAGE_FINISH_MAP 0)
            "KitchenQual" KITCHEN_QUAL_MAP 3) (frameMedians tf)) name with
    | none => rw [h5] at hge; rw [← hge]
    | some cs => rw [h5] at hge; rw [← hge]
  subst hname
  have hcell : c.2 =
      match alookup df c.1 with
      | some cs0 => fillValue (frameMedians tf) c.1 (encTrans c.1 cs0)
      | none => List.replicate (nRows df) (Cell.num 0) := by
    have h5 := alookup_fillStep
      (encodeStep
        (encodeStep
          (encodeStep (encodeStep df "BsmtExposure" BSMT_EXPOSURE_MAP 0)
            "BsmtFinType1" BSMT_FIN_MAP 0)
          "GarageFinish" GARAGE_FINISH_MAP 0)
        "KitchenQual" KITCHEN_QUAL_MAP 3) (frameMedians tf) c.1
    rw [alookup_encChain] at h5
    cases halo : alookup df c.1 with
    | none =>
      rw [halo] at h5
      rw [h5] at hge
      have h6 : (c.1,
          List.replicate
            (nRows (fillStep
              (encodeStep
                (encodeStep
                  (encodeStep (encodeStep df "BsmtExposure" BSMT_EXPOSURE_MAP 0)
                    "BsmtFinType1" BSMT_FIN_MAP 0)
                  "GarageFinish" GARAGE_FINISH_MAP 0)
                "KitchenQual" KITCHEN_QUAL_MAP 3) (frameMedians tf)))
            (Cell.num 0)) = c := hge
      rw [← h6, nRows_chain]
    | some cs0 =>
      rw [halo] at h5
      rw [h5] at hge
      have h6 : (c.1, fillValue (frameMedians tf) c.1 (encTrans c.1 cs0)) =
          c := hge
      rw [← h6]
  cases halo : alookup df c.1 with
  | none =>
    right
    refine ⟨rfl, ?_⟩
    rw [hcell, halo]
  | some cs0 =>
    left
    refine ⟨cs0, rfl, ?_⟩
    rw [hcell, halo]

/-- C6 counterexample: when a numeric training column is entirely missing its
median is NaN, and `fillna(NaN)` leaves the raw column's missing cell in
place, so the aligned output contains a missing value, contradicting the
claim's unconditional "no missing values". -/
theorem C6_alignment_counterexample :
    getCell (preprocess_inherited [("A", [Cell.missing])] ["A"]
        [("A", [Cell.missing])]) "A" 0 = some Cell.missing := by
  decide

/-- C6 (amended): provided every numeric column of the training frame has at
least one non-missing value (so no training median is NaN), the output of
preprocess_inherited has exactly the columns feature_names in that order,
every column has exactly as many rows as the raw table, no cell is missing,
and a feature column absent from the raw table is created filled with 0. -/
theorem C6_alignment_amended (df : DataFrame) (fc : List String)
    (tf : DataFrame) (hwf : WF df)
    (hmed : ∀ p ∈ frameMedians tf, p.2 ≠ none) :
    (preprocess_inherited df fc tf).map Prod.fst = fc ∧
    (∀ c ∈ preprocess_inherited df fc tf, c.2.length = nRows df) ∧
    (∀ c ∈ preprocess_inherited df fc tf, Cell.missing ∉ c.2) ∧
    (∀ name ∈ fc, hasCol df name = false →
      alookup (preprocess_inherited df fc tf) name =
        some (List.replicate (nRows df) (Cell.num 0))) := by
  refine ⟨?_, ?_, ?_, ?_⟩
  · simp only [preprocess_inherited]
    exact reindexCols_map_fst _ fc 0
  · intro c hc
    rcases (preprocess_mem df fc tf c hc).2 with ⟨cs0, halo, hcs⟩ | ⟨-, hcs⟩
    · rw [hcs, fillValue_length, encTrans_length]
      exact hwf (c.1, cs0) (alookup_mem df c.1 cs0 halo)
    · rw [hcs]
      exact List.length_replicate _ _
  · intro c hc habs
    rcases (preprocess_mem df fc tf c hc).2 with ⟨cs0, -, hcs⟩ | ⟨-, hcs⟩
    · rw [hcs] at habs
      unfold fillValue at habs
      cases hm2 : alookup (frameMedians tf) c.1 with
      | none =>
        rw [hm2] at habs
        exact (fillna_not_missing _ _ _ habs) rfl
      | some o =>
        cases o with
        | none =>
          exact (hmed (c.1, none) (alookup_mem _ _ _ hm2)) rfl
        | some m =>
          rw [hm2] at habs
          exact (fillna_not_missing _ _ _ habs) rfl
    · rw [hcs] at habs
      cases List.eq_of_mem_replicate habs
  · intro name hnm hnc
    have h1 := alookup_preprocess_closed df fc tf name
    rw [if_pos hnm, alookup_eq_none_of_not_hasCol df name hnc] at h1
    rw [h1]

/-- C6 witness: a concrete raw table aligns to the schema with the right
columns; an absent feature column is created filled with 0. -/
theorem C6_alignment_amended_witness :
    (preprocess_inherited [("GrLivArea", [Cell.missing, Cell.num 2])]
        ["GrLivArea", "LotArea"] [("GrLivArea", [Cell.num 7])]).map Prod.fst =
      ["GrLivArea", "LotArea"] ∧
    alookup (preprocess_inherited [("GrLivArea", [Cell.missing, Cell.num 2])]
        ["GrLivArea", "LotArea"] [("GrLivArea", [Cell.num 7])]) "LotArea" =
      some [Cell.num 0, Cell.num 0] := by
  have h := C6_alignment_amended [("GrLivArea", [Cell.missing, Cell.num 2])]
    ["GrLivArea", "LotArea"] [("GrLivArea", [Cell.num 7])]
    (by intro c hc; simp only [List.mem_singleton] at hc; rw [hc]; rfl)
    (by decide)
  refine ⟨h.1, ?_⟩
  have h4 := h.2.2.2 "LotArea" (by decide) (by decide)
  exact h4

/-- C9: running preprocess_inherited twice on the same raw table with the
same feature_names and training frame yields identical output, and the call
leaves the caller's table unchanged (the body starts with `df = df.copy()`
and rewrites only the copy, so there is no hidden state mutation): the second
run, applied to the table as left by the first call, returns the same result,
and the table after the call equals the original. -/
theorem C9_no_hidden_mutation (df : DataFrame) (fc : List String)
    (tf : DataFrame) :
    (preprocess_inherited_call df fc tf).2 = df ∧
    (preprocess_inherited_call ((preprocess_inherited_call df fc tf).2) fc
        tf).1 = (preprocess_inherited_call df fc tf).1 ∧
    (preprocess_inherited_call df fc tf).1 = preprocess_inherited df fc tf :=
  ⟨rfl, rfl, rfl⟩

/-- C10: the categorical encoding replaces every cell that is not literally a
key of the mapping — including integer ranks produced by a previous pass —
with the default rank; applying preprocess_inherited to its own output
therefore turns the whole column, for each of the four categorical columns
surviving into feature_names, into that column's default rank (0 for
BsmtExposure, BsmtFinType1 and GarageFinish, 3 for KitchenQual), so the
function is not idempotent under composition (witnessed by a concrete table
where the second application changes the output). -/
theorem C10_not_idempotent :
    (∀ (df : DataFrame) (fc : List String) (tf : DataFrame)
       (name : String) (mapping : List (String × ℚ)) (d : ℚ),
      (name, mapping, d) ∈
        [("BsmtExposure", BSMT_EXPOSURE_MAP, (0 : ℚ)),
         ("BsmtFinType1", BSMT_FIN_MAP, 0),
         ("GarageFinish", GARAGE_FINISH_MAP, 0),
         ("KitchenQual", KITCHEN_QUAL_MAP, 3)] →
      WF df → fc.Nodup → (df.map Prod.fst).Nodup → name ∈ fc →
      alookup (preprocess_inherited (preprocess_inherited df fc tf) fc tf)
          name = some (List.replicate (nRows df) (Cell.num d))) ∧
    preprocess_inherited
        (preprocess_inherited [("KitchenQual", [Cell.str "Ex"])]
          ["KitchenQual"] []) ["KitchenQual"] [] ≠
      preprocess_inherited [("KitchenQual", [Cell.str "Ex"])]
        ["KitchenQual"] [] := by
  constructor
  · intro df fc tf name mapping d hspec hwf _ _ hname
    obtain ⟨cs1, h1, hnum, hlen⟩ :
        ∃ cs1, alookup (preprocess_inherited df fc tf) name =
            some cs1 ∧ (∀ c ∈ cs1, ∃ q, c = Cell.num q) ∧
            cs1.length = nRows df := by
      have h1 := alookup_preprocess_closed df fc tf name
      rw [if_pos hname] at h1
      cases halo : alookup df name with
      | none =>
        rw [halo] at h1
        refine ⟨List.replicate (nRows df) (Cell.num 0), by rw [h1], ?_, ?_⟩
        · intro c hcm
          exact ⟨0, List.eq_of_mem_replicate hcm⟩
        · exact List.length_replicate _ _
      | some cs0 =>
        rw [halo] at h1
        have h1' : alookup (preprocess_inherited df fc tf) name =
            some (fillValue (frameMedians tf) name (encTrans name cs0)) := by
          rw [h1]
        rw [encTrans_spec name mapping d hspec] at h1'
        have hsm : ∀ c ∈ safe_map cs0 mapping d, c ≠ Cell.missing := by
          intro c hcm
          rcases safe_map_mem_num _ _ _ c hcm with ⟨q, hq⟩
          rw [hq]
          simp
        rw [fillValue_of_no_missing _ _ _ hsm] at h1'
        refine ⟨safe_map cs0 mapping d, h1', ?_, ?_⟩
        · intro c hcm
          exact safe_map_mem_num _ _ _ c hcm
        · rw [safe_map_length]
          exact hwf (name, cs0) (alookup_mem df _ cs0 halo)
    have h2 := alookup_preprocess_closed (preprocess_inherited df fc tf) fc tf
      name
    rw [if_pos hname, h1] at h2
    have h2' : alookup
        (preprocess_inherited (preprocess_inherited df fc tf) fc tf) name =
        some (fillValue (frameMedians tf) name (encTrans name cs1)) := by
      rw [h2]
    rw [encTrans_spec name mapping d hspec] at h2'
    have hconst : safe_map cs1 mapping d =
        List.replicate cs1.length (Cell.num d) := by
      rw [safe_map_eq_map]
      apply map_eq_replicate_of_all
      intro c hcm
      rcases hnum c hcm with ⟨q, hq⟩
      rw [hq]
      rfl
    rw [hconst] at h2'
    rw [fillValue_of_no_missing _ _ _ (by
      intro c hcm
      rw [List.eq_of_mem_replicate hcm]
      simp)] at h2'
    rw [h2', hlen]
  · decide

/-- C10 witness: on a concrete one-row table an already-encoded garage-finish
rank collapses to that column's default rank 0 under a second application. -/
theorem C10_not_idempotent_witness :
    alookup (preprocess_inherited (preprocess_inherited
        [("GarageFinish", [Cell.str "Fin"])] ["GarageFinish"] [])
        ["GarageFinish"] []) "GarageFinish" =
      some (List.replicate 1 (Cell.num 0)) := by
  have h := C10_not_idempotent.1 [("GarageFinish", [Cell.str "Fin"])]
    ["GarageFinish"] [] "GarageFinish" GARAGE_FINISH_MAP 0 (by decide)
    (by intro c hc; simp only [List.mem_singleton] at hc; rw [hc]; rfl)
    (by decide) (by decide) (by decide)
  exact h

/-- C8 counterexample: the claim that missing cells are always resolved to a
default value fails: for a raw column whose training column is numeric but
entirely missing, the training median is NaN, `fillna(NaN)` is a no-op, and
the missing cell survives unresolved into the aligned output (though still
without an exception). -/
theorem C8_never_raises_counterexample :
    getCell (preprocess_inherited [("B", [Cell.missing])] ["B"]
        [("B", [Cell.missing])]) "B" 0 = some Cell.missing := by
  decide

/-- C8 (amended): neither core function errors on unknown or missing data: a
user-supplied key absent from the schema columns is silently dropped
(filtering user_values to the schema columns does not change the output of
build_feature_frame); _safe_map resolves every cell — unknown labels and
missing cells included — to a number; and every missing cell of the raw
table is resolved in the output of preprocess_inherited provided no numeric
training column is entirely missing (a NaN training median leaves the cell
missing, though still without raising). -/
theorem C8_never_raises_amended :
    (∀ (user_values : List (String × ℚ)) (feature_columns : List String)
       (train_features_df : DataFrame),
      build_feature_frame user_values feature_columns train_features_df =
        build_feature_frame
          (user_values.filter (fun p => feature_columns.contains p.1))
          feature_columns train_features_df) ∧
    (∀ (cells : List Cell) (mapping : List (String × ℚ)) (d : ℚ) (c : Cell),
      c ∈ safe_map cells mapping d → ∃ q, c = Cell.num q) ∧
    (∀ (df : DataFrame) (fc : List String) (tf : DataFrame),
      (∀ p ∈ frameMedians tf, p.2 ≠ none) →
      ∀ c ∈ preprocess_inherited df fc tf, Cell.missing ∉ c.2) := by
  refine ⟨?_, ?_, ?_⟩
  · intro user_values feature_columns train_features_df
    simp only [build_feature_frame]
    rw [applyUserValues_filter_eq user_values
      (rowFromDefaults feature_columns (frameMedians train_features_df))
      (fun k => feature_columns.contains k)
      (fun k => hasCol_rowFromDefaults feature_columns
        (frameMedians train_features_df) k)]
  · intro cells mapping d c hc
    exact safe_map_mem_num cells mapping d c hc
  · intro df fc tf hmed c hc habs
    rcases (preprocess_mem df fc tf c hc).2 with ⟨cs0, -, hcs⟩ | ⟨-, hcs⟩
    · rw [hcs] at habs
      unfold fillValue at habs
      cases hm2 : alookup (frameMedians tf) c.1 with
      | none =>
        rw [hm2] at habs
        exact (fillna_not_missing _ _ _ habs) rfl
      | some o =>
        cases o with
        | none =>
          exact (hmed (c.1, none) (alookup_mem _ _ _ hm2)) rfl
        | some m =>
          rw [hm2] at habs
          exact (fillna_not_missing _ _ _ habs) rfl
    · rw [hcs] at habs
      cases List.eq_of_mem_replicate habs

/-- C8 witness: a concrete unknown user key is dropped, a concrete unknown
label resolves to its default rank, and a concrete missing numeric cell is
resolved (the training median exists), leaving no missing value. -/
theorem C8_never_raises_amended_witness :
    (build_feature_frame [("NotAFeature", (7 : ℚ)), ("OverallQual", 9)]
        ["OverallQual"] [] =
      build_feature_frame
        ([("NotAFeature", (7 : ℚ)), ("OverallQual", 9)].filter
          (fun p => ["OverallQual"].contains p.1)) ["OverallQual"] []) ∧
    (∃ q, Cell.num (3 : ℚ) = Cell.num q) ∧
    Cell.missing ∉ [Cell.num (5 : ℚ)] := by
  refine ⟨?_, ?_, ?_⟩
  · exact C8_never_raises_amended.1 [("NotAFeature", (7 : ℚ)), ("OverallQual", 9)]
      ["OverallQual"] []
  · exact C8_never_raises_amended.2.1 [Cell.missing] KITCHEN_QUAL_MAP 3
      (Cell.num 3) (by decide)
  · exact C8_never_raises_amended.2.2 [("GrLivArea", [Cell.missing])]
      ["GrLivArea"] [("GrLivArea", [Cell.num 5])] (by decide)
      ("GrLivArea", [Cell.num 5]) (by decide)
